import Mathlib

/-!
Verification development for the LeetCode-Enhanced-Editor browser extension.

The definitions below are shallow embeddings of the extension source:
the background service worker (`background.js` and the unnamed variant
`part_002`) and the content scripts (`content_scripts/leetcode_injector.js`,
which contains two script variants, and the unnamed variant `part_000`).
Asynchronous page interaction is modelled by explicit environments
(per-tick oracles) and explicit state passing; local storage is modelled
as an association list.
-/

/- ### Storage model (chrome.storage.local) -/

/-- Local storage modelled as an association list from keys to values. -/
def Store := List (String × String)

/-- chrome.storage.local.set for a single key: last write wins. -/
def storeSet (st : Store) (k v : String) : Store :=
  (k, v) :: st.filter (fun p => !(p.1 == k))

/-- chrome.storage.local.get for a single key. -/
def storeGet (st : Store) (k : String) : Option String :=
  (st.find? (fun p => p.1 == k)).map Prod.snd

theorem storeGet_storeSet_self (st : Store) (k v : String) :
    storeGet (storeSet st k v) k = some v := by
  simp [storeGet, storeSet, List.find?]

/- ### Storage keys (Storage Adapter key derivations) -/

/-- The common storage key stem, `STORAGE_KEY_PREFIX` in the source. -/
def storageKeyBase : String := "leetcodeCode-"

/-- Key written by the `saveCodeForTab` handler in `background.js`
(`leetcodeCode-<slug>`) and by `handleSaveRequest` in `part_002`
(`STORAGE_KEY_PREFIX + slug`). The save path never appends a language. -/
def saveStorageKey (slug : String) : String :=
  storageKeyBase ++ slug

/-- Key read at initialization by the first content-script variant
(`STORAGE_KEY_PREFIX + problemSlug`). -/
def initLoadKey (slug : String) : String :=
  storageKeyBase ++ slug

/-- Key read at initialization by the second content-script variant
(`leetcodeCode-<problemSlug>-<language>`, leetcode_injector.js line 717). -/
def initLoadKeyLang (slug lang : String) : String :=
  storageKeyBase ++ slug ++ "-" ++ lang

/- ### Readiness Poller (pollForCondition) -/

/-- Per-tick oracle describing what the page and the browser report to the
poller on each polling attempt: whether the tab still exists, what the
injected predicate evaluates to, and which error flag (if any) the
error-flag probe observes (`window.monacoInjectError || window.monacoSyncError`). -/
structure PollEnv where
  tabAlive : Nat → Bool
  predicate : Nat → Bool
  errorFlag : Nat → Option String

/-- Outcome of a `pollForCondition` run. -/
inductive PollResult where
  | success (tick : Nat)
  | timeout
  | sessionLost (tick : Nat)
  | pageError (tick : Nat) (msg : String)
deriving DecidableEq, Repr

/-- One iteration of the `while (attempts < MAX_POLLING_ATTEMPTS)` loop of
`pollForCondition`, with `fuel` the remaining attempt budget and `tick`
the current attempt index. The second component counts how many times the
injected predicate was executed. Per iteration the code first checks tab
existence (`chrome.tabs.get`), then runs the predicate, then probes the
error flags, and otherwise sleeps and retries. -/
def pollLoop (env : PollEnv) : Nat → Nat → PollResult × Nat
  | _tick, 0 => (PollResult.timeout, 0)
  | tick, fuel + 1 =>
    if env.tabAlive tick = false then (PollResult.sessionLost tick, 0)
    else if env.predicate tick then (PollResult.success tick, 1)
    else
      match env.errorFlag tick with
      | some msg => (PollResult.pageError tick ("Page signaled error: " ++ msg), 1)
      | none =>
        let r := pollLoop env (tick + 1) fuel
        (r.1, r.2 + 1)

/-- `pollForCondition` from the source: run the loop from attempt 0 with the
full attempt budget. -/
def pollForCondition (env : PollEnv) (maxAttempts : Nat) : PollResult × Nat :=
  pollLoop env 0 maxAttempts

/-- `MAX_POLLING_ATTEMPTS` in `background.js`. -/
def MAX_POLLING_ATTEMPTS : Nat := 30

/-- `MAX_POLLING_ATTEMPTS` in the `part_002` background variant. -/
def MAX_POLLING_ATTEMPTS_P2 : Nat := 35

/-- Skipping lemma: while the tab is alive, the predicate is falsy and no
error flag is set, the loop just advances tick by tick, accumulating one
predicate probe per tick. -/
theorem pollLoop_shift (env : PollEnv) :
    ∀ (t tick fuel : Nat),
      (∀ i, i < t → env.tabAlive (tick + i) = true) →
      (∀ i, i < t → env.predicate (tick + i) = false) →
      (∀ i, i < t → env.errorFlag (tick + i) = none) →
      t ≤ fuel →
      pollLoop env tick fuel =
        ((pollLoop env (tick + t) (fuel - t)).1,
         (pollLoop env (tick + t) (fuel - t)).2 + t) := by
  intro t
  induction t with
  | zero => intro tick fuel _ _ _ _; simp
  | succ t ih =>
    intro tick fuel ha hp he hle
    match fuel, hle with
    | fuel + 1, _ =>
      have ha0 : env.tabAlive tick = true := by simpa using ha 0 (Nat.succ_pos t)
      have hp0 : env.predicate tick = false := by simpa using hp 0 (Nat.succ_pos t)
      have he0 : env.errorFlag tick = none := by simpa using he 0 (Nat.succ_pos t)
      have hstep :
          pollLoop env tick (fuel + 1) =
            ((pollLoop env (tick + 1) fuel).1, (pollLoop env (tick + 1) fuel).2 + 1) := by
        simp [pollLoop, ha0, hp0, he0]
      have hrec := ih (tick + 1) fuel
        (fun i hi => by
          have := ha (i + 1) (by omega)
          simpa [Nat.add_comm, Nat.add_left_comm, Nat.add_assoc] using this)
        (fun i hi => by
          have := hp (i + 1) (by omega)
          simpa [Nat.add_comm, Nat.add_left_comm, Nat.add_assoc] using this)
        (fun i hi => by
          have := he (i + 1) (by omega)
          simpa [Nat.add_comm, Nat.add_left_comm, Nat.add_assoc] using this)
        (by omega)
      have harith : tick + 1 + t = tick + (t + 1) := by omega
      have hfuel : fuel - t = fuel + 1 - (t + 1) := by omega
      rw [hstep, hrec, harith, hfuel]
      simp [Nat.add_assoc]

/-- C4: if on every tick the predicate is falsy, no error flag is set and the
tab stays alive, `pollForCondition` performs exactly `maxAttempts` predicate
probes and then fails with `Timeout`. -/
theorem pollForCondition_timeout (env : PollEnv) (m : Nat)
    (ha : ∀ n, env.tabAlive n = true)
    (hp : ∀ n, env.predicate n = false)
    (he : ∀ n, env.errorFlag n = none) :
    pollForCondition env m = (PollResult.timeout, m) := by
  unfold pollForCondition
  have h := pollLoop_shift env m 0 m
    (fun i _ => by simpa using ha (0 + i))
    (fun i _ => by simpa using hp (0 + i))
    (fun i _ => by simpa using he (0 + i)) (Nat.le_refl m)
  simpa [pollLoop] using h

/-- An environment in which the tab is always alive, the predicate is always
falsy and no error flag is ever set. -/
def envAllQuiet : PollEnv :=
  { tabAlive := fun _ => true, predicate := fun _ => false, errorFlag := fun _ => none }

/-- Witness for C4 at the concrete attempt budget of `background.js`. -/
theorem pollForCondition_timeout_witness :
    pollForCondition envAllQuiet MAX_POLLING_ATTEMPTS = (PollResult.timeout, MAX_POLLING_ATTEMPTS) :=
  pollForCondition_timeout envAllQuiet MAX_POLLING_ATTEMPTS
    (fun _ => rfl) (fun _ => rfl) (fun _ => rfl)

/-- C5: if the predicate stays falsy up to tick `t`, no error flag is set
before `t`, and at tick `t` an error flag carrying `msg` is observed, the
poll fails on that same tick with the page error (message propagated), after
exactly `t + 1` predicate probes, without waiting for the attempt budget. -/
theorem pollForCondition_pageError (env : PollEnv) (m t : Nat) (msg : String)
    (ha : ∀ n, n ≤ t → env.tabAlive n = true)
    (hp : ∀ n, n ≤ t → env.predicate n = false)
    (he : ∀ n, n < t → env.errorFlag n = none)
    (hflag : env.errorFlag t = some msg)
    (hlt : t < m) :
    pollForCondition env m =
      (PollResult.pageError t ("Page signaled error: " ++ msg), t + 1) := by
  unfold pollForCondition
  have h := pollLoop_shift env t 0 m
    (fun i hi => by simpa using ha (0 + i) (by omega))
    (fun i hi => by simpa using hp (0 + i) (by omega))
    (fun i hi => by simpa using he (0 + i) (by omega))
    (by omega)
  rw [h]
  have hm : m - t = (m - t - 1) + 1 := by omega
  rw [hm]
  have hat : env.tabAlive t = true := ha t (Nat.le_refl t)
  have hpt : env.predicate t = false := hp t (Nat.le_refl t)
  simp [pollLoop, hat, hpt, hflag, Nat.add_comm]

/-- Environment for the C5 witness: predicate never true, tab alive, an error
flag appears at tick 2. -/
def envErrAtTwo : PollEnv :=
  { tabAlive := fun _ => true
    predicate := fun _ => false
    errorFlag := fun n => if n == 2 then some "boom" else none }

/-- Witness for C5: the poll fails on tick 2 with the page error after three
probes, far below the 30-attempt budget. -/
theorem pollForCondition_pageError_witness :
    pollForCondition envErrAtTwo MAX_POLLING_ATTEMPTS =
      (PollResult.pageError 2 ("Page signaled error: " ++ "boom"), 3) :=
  pollForCondition_pageError envErrAtTwo MAX_POLLING_ATTEMPTS 2 "boom"
    (fun _ _ => rfl) (fun _ _ => rfl) (by decide) (by decide) (by decide)

/- ### Tab/Session Registry (tabSlugs) -/

/-- JavaScript truthiness of a possibly-missing slug string. -/
def slugTruthy : Option String → Bool
  | some s => s ≠ ""
  | none => false

/-- Scan for an occurrence of `pat` anywhere inside the character list. -/
def containsSub (pat : List Char) : List Char → Bool
  | [] => pat.isEmpty
  | c :: rest => pat.isPrefixOf (c :: rest) || containsSub pat rest

/-- Substring containment, modelling JavaScript `String.prototype.includes`. -/
def strContains (s pat : String) : Bool :=
  containsSub pat.toList s.toList

/-- Events affecting one entry of the `tabSlugs` registry in `background.js`:
receipt of an `injectAndCreateMonaco` request carrying `problemSlug` (the
handler registers the slug immediately, before any injection step), the
terminal outcome of that request, tab removal, and a completed navigation. -/
inductive TabEvent where
  | injectRequested (slug : String)
  | injectSucceeded
  | injectFailed
  | tabRemoved
  | tabUpdatedComplete (url : String)
deriving DecidableEq, Repr

/-- State transition of `tabSlugs[tabId]` for one event, as implemented by
`injectAndSetupMonaco` (slug association at entry, deletion in the catch
block), the `chrome.tabs.onRemoved` listener, and the `chrome.tabs.onUpdated`
listener of `background.js`. -/
def stepTabSlugs (cur : Option String) : TabEvent → Option String
  | TabEvent.injectRequested slug => if slug ≠ "" then some slug else none
  | TabEvent.injectSucceeded => cur
  | TabEvent.injectFailed => none
  | TabEvent.tabRemoved => if slugTruthy cur then none else cur
  | TabEvent.tabUpdatedComplete url =>
    match cur with
    | some s =>
      if s ≠ "" ∧ url ≠ "" then
        if strContains url "leetcode.com/problems/" && strContains url ("/problems/" ++ s)
        then some s else none
      else some s
    | none => none

/-- Registry entry for one tab after a sequence of events, starting empty. -/
def tabSlugsRun (trace : List TabEvent) : Option String :=
  trace.foldl stepTabSlugs none

/-- Whether the trace contains a successful injection completion. -/
def traceHasSuccess (trace : List TabEvent) : Bool :=
  trace.any fun e => match e with | TabEvent.injectSucceeded => true | _ => false

/-- C6: if the tab stays alive, the predicate is falsy and no error flag
appears before tick `t`, and the tab ceases to exist at tick `t`, the poll
fails with session loss at tick `t` having probed the predicate only `t`
times (the tick-`t` probe never runs); and the failure path of the enclosing
injection request clears the registry entry. -/
theorem pollForCondition_sessionLost (env : PollEnv) (m t : Nat)
    (ha : ∀ n, n < t → env.tabAlive n = true)
    (hdead : env.tabAlive t = false)
    (hp : ∀ n, n < t → env.predicate n = false)
    (he : ∀ n, n < t → env.errorFlag n = none)
    (hlt : t < m) :
    pollForCondition env m = (PollResult.sessionLost t, t)
      ∧ ∀ cur : Option String, stepTabSlugs cur TabEvent.injectFailed = none := by
  refine ⟨?_, fun cur => rfl⟩
  unfold pollForCondition
  have h := pollLoop_shift env t 0 m
    (fun i hi => by simpa using ha (0 + i) (by omega))
    (fun i hi => by simpa using hp (0 + i) (by omega))
    (fun i hi => by simpa using he (0 + i) (by omega))
    (by omega)
  rw [h]
  have hm : m - t = (m - t - 1) + 1 := by omega
  rw [hm]
  simp [pollLoop, hdead]

/-- Environment for the C6 witness: the tab exists only at tick 0 and is gone
from tick 1 onwards. -/
def envTabDiesAtOne : PollEnv :=
  { tabAlive := fun n => n == 0
    predicate := fun _ => false
    errorFlag := fun _ => none }

/-- Witness for C6: the poll aborts with session loss on tick 1 after a single
predicate probe, and the failure cleanup removes the registered slug. -/
theorem pollForCondition_sessionLost_witness :
    pollForCondition envTabDiesAtOne MAX_POLLING_ATTEMPTS = (PollResult.sessionLost 1, 1)
      ∧ stepTabSlugs (some "two-sum") TabEvent.injectFailed = none := by
  have h := pollForCondition_sessionLost envTabDiesAtOne MAX_POLLING_ATTEMPTS 1
    (by decide) (by decide) (by decide) (by decide) (by decide)
  exact ⟨h.1, h.2 (some "two-sum")⟩

/-- C3 counterexample: immediately after an `injectAndCreateMonaco` request is
received for slug `two-sum`, the registry already contains the entry, although
no injection has succeeded (the request is still in flight). This refutes the
claimed invariant that an entry exists only for sessions whose injection has
succeeded. -/
theorem tabSlugs_entry_before_success :
    tabSlugsRun [TabEvent.injectRequested "two-sum"] = some "two-sum"
      ∧ traceHasSuccess [TabEvent.injectRequested "two-sum"] = false := by
  constructor <;> rfl

/-- Helper invariant: a registered slug is never the empty string. -/
theorem tabSlugsRun_ne_some_empty :
    ∀ (trace : List TabEvent) (cur : Option String), cur ≠ some "" →
      trace.foldl stepTabSlugs cur ≠ some "" := by
  intro trace
  induction trace with
  | nil => intro cur h; simpa using h
  | cons e rest ih =>
    intro cur h
    refine ih (stepTabSlugs cur e) ?_
    cases e with
    | injectRequested slug =>
      by_cases hs : slug = "" <;> simp [stepTabSlugs, hs]
    | injectSucceeded => simpa [stepTabSlugs] using h
    | injectFailed => simp [stepTabSlugs]
    | tabRemoved =>
      cases cur with
      | none => simp [stepTabSlugs, slugTruthy]
      | some s =>
        by_cases hs : s = ""
        · subst hs; exact absurd rfl h
        · simp [stepTabSlugs, slugTruthy, hs]
    | tabUpdatedComplete url =>
      cases cur with
      | none => simp [stepTabSlugs]
      | some s =>
        have hs : s ≠ "" := by
          intro hcontr; exact h (by rw [hcontr])
        simp only [stepTabSlugs]
        split
        · split
          · simpa using hs
          · simp
        · simpa using hs

/-- C3 amended: after any history of events, a registry entry for a session
appears as soon as an injection request with a non-empty problemId is
received (even though the injection is still in flight), disappears on the
failure of the request, on tab removal, and on a completed navigation to a
URL that no longer contains the problem path, and is preserved by a
successful completion. -/
theorem tabSlugs_lifecycle (trace : List TabEvent) (slug url : String) :
    (slug ≠ "" → tabSlugsRun (trace ++ [TabEvent.injectRequested slug]) = some slug)
      ∧ tabSlugsRun (trace ++ [TabEvent.injectFailed]) = none
      ∧ tabSlugsRun (trace ++ [TabEvent.injectSucceeded]) = tabSlugsRun trace
      ∧ tabSlugsRun (trace ++ [TabEvent.tabRemoved]) = none
      ∧ (∀ s, tabSlugsRun trace = some s → url ≠ "" →
          strContains url ("/problems/" ++ s) = false →
          tabSlugsRun (trace ++ [TabEvent.tabUpdatedComplete url]) = none) := by
  have hrun : ∀ e : TabEvent,
      tabSlugsRun (trace ++ [e]) = stepTabSlugs (tabSlugsRun trace) e := by
    intro e; simp [tabSlugsRun, List.foldl_append]
  have hne : tabSlugsRun trace ≠ some "" :=
    tabSlugsRun_ne_some_empty trace none (by simp)
  refine ⟨?_, ?_, ?_, ?_, ?_⟩
  · intro hs; rw [hrun]; simp [stepTabSlugs, hs]
  · rw [hrun]; rfl
  · rw [hrun]; rfl
  · rw [hrun]
    cases hcur : tabSlugsRun trace with
    | none => simp [stepTabSlugs, slugTruthy]
    | some s =>
      have hs : s ≠ "" := by
        intro h; exact hne (by rw [hcur, h])
      simp [stepTabSlugs, slugTruthy, hs]
  · intro s hcur hu hnc
    rw [hrun, hcur]
    have hs : s ≠ "" := by
      intro h; exact hne (by rw [hcur, h])
    simp [stepTabSlugs, hs, hu, hnc]

/-- Witness for C3 amended: a second injection request immediately replaces
the registered entry with the new slug, while that request is in flight. -/
theorem tabSlugs_lifecycle_witness :
    tabSlugsRun ([TabEvent.injectRequested "two-sum"] ++
        [TabEvent.injectRequested "valid-anagram"]) = some "valid-anagram" :=
  (tabSlugs_lifecycle [TabEvent.injectRequested "two-sum"] "valid-anagram" "x").1
    (by decide)

/-- C1: the key derivations of the save path and of the initialization-time
read disagree in the language-qualified content-script variant. Saving code
for problem `two-sum` writes under `leetcodeCode-two-sum`, while the next
initialization with detected language `python` reads `leetcodeCode-two-sum-python`
and therefore misses the saved content entirely (the unqualified read of the
other content-script variant does find it). -/
theorem saveLoad_key_mismatch :
    saveStorageKey "two-sum" = "leetcodeCode-two-sum"
      ∧ initLoadKeyLang "two-sum" "python" = "leetcodeCode-two-sum-python"
      ∧ saveStorageKey "two-sum" ≠ initLoadKeyLang "two-sum" "python"
      ∧ storeGet (storeSet [] (saveStorageKey "two-sum") "print(1)")
          (initLoadKeyLang "two-sum" "python") = none
      ∧ storeGet (storeSet [] (saveStorageKey "two-sum") "print(1)")
          (initLoadKey "two-sum") = some "print(1)" := by
  refine ⟨rfl, rfl, by decide, rfl, rfl⟩

/- ### Save handler (saveCodeForTab / handleSaveRequest) -/

/-- The `code` field of a `saveCodeForTab` message as a JavaScript value:
it may be undefined, null, or a string. -/
inductive JSCode where
  | undef
  | nullv
  | str (s : String)
deriving DecidableEq, Repr

/-- The code guard of the `background.js` handler: `codeToSave !== undefined`. -/
def codeDefinedBg : JSCode → Bool
  | JSCode.undef => false
  | _ => true

/-- The code guard of the `part_002` handler: the code is neither undefined
nor null. -/
def codeDefinedP2 : JSCode → Bool
  | JSCode.undef => false
  | JSCode.nullv => false
  | _ => true

/-- Result of a save request: the storage contents afterwards and whether the
response reported success (assuming the storage backend itself succeeds). -/
structure SaveOutcome where
  store : Store
  success : Bool

/-- `handleSaveRequest` from `part_002` (the `saveCodeForTab` branch of the
message listener in `background.js` is identical up to the null check):
look up the slug registered for the sending tab; if the slug is truthy and
the code passes the guard, write the code under `leetcodeCode-<slug>` and
report success, otherwise report failure without touching storage. -/
def handleSaveRequest (slug : Option String) (code : JSCode) (st : Store) : SaveOutcome :=
  if slugTruthy slug && codeDefinedP2 code then
    match slug, code with
    | some s, JSCode.str v => ⟨storeSet st (saveStorageKey s) v, true⟩
    | _, _ => ⟨st, false⟩
  else ⟨st, false⟩

/-- C10: a save request whose content is the empty string passes both
variants' guards (which test only definedness, not non-emptiness); with a
registered slug it overwrites the stored entry with the empty string and the
response reports success. -/
theorem handleSaveRequest_empty_string (s : String) (st : Store) (hs : s ≠ "") :
    (handleSaveRequest (some s) (JSCode.str "") st).success = true
      ∧ storeGet (handleSaveRequest (some s) (JSCode.str "") st).store
          (saveStorageKey s) = some ""
      ∧ codeDefinedBg (JSCode.str "") = true
      ∧ codeDefinedP2 (JSCode.str "") = true := by
  have hrun : handleSaveRequest (some s) (JSCode.str "") st =
      ⟨storeSet st (saveStorageKey s) "", true⟩ := by
    simp [handleSaveRequest, slugTruthy, codeDefinedP2, hs]
  refine ⟨?_, ?_, rfl, rfl⟩
  · rw [hrun]
  · rw [hrun]
    exact storeGet_storeSet_self st (saveStorageKey s) ""

/-- Witness for C10: the empty string overwrites previously saved content for
`two-sum` and the save reports success. -/
theorem handleSaveRequest_empty_string_witness :
    (handleSaveRequest (some "two-sum") (JSCode.str "")
        [("leetcodeCode-two-sum", "old code")]).success = true
      ∧ storeGet (handleSaveRequest (some "two-sum") (JSCode.str "")
          [("leetcodeCode-two-sum", "old code")]).store
          (saveStorageKey "two-sum") = some "" := by
  have h := handleSaveRequest_empty_string "two-sum"
    [("leetcodeCode-two-sum", "old code")] (by decide)
  exact ⟨h.1, h.2.1⟩

/- ### Debounced change handler (sync listener, Step 7) -/

/-- The host page's original editor instance as the sync code sees it: which
of the known value-setting methods are available. -/
structure TargetEditor where
  hasModelSetValue : Bool
  hasInstanceSetValue : Bool
deriving DecidableEq, Repr

/-- Environment observed by one firing of the debounced change handler:
whether a runtime error occurs during the sync attempt, whether
`lcMonaco.editor.getEditors` is available, and the first editor instance
returned by it (if any). -/
structure SyncEnv where
  runtimeThrow : Bool
  accessorAvailable : Bool
  firstEditor : Option TargetEditor
deriving DecidableEq, Repr

/-- Observable outcome of one firing of the debounced change handler. -/
structure SyncOutcome where
  saveDispatched : Bool
  syncSuccessful : Bool
  syncStatus : String
deriving DecidableEq, Repr

/-- The debounced change handler installed by Step 7 of
`injectAndSetupMonaco` in `background.js`: the accessor-missing and
no-target branches return early without dispatching the save event, the
no-method branch and the catch branch also skip the dispatch, and only the
successful-sync branch dispatches the custom save event. -/
def bgDebouncedHandler (env : SyncEnv) : SyncOutcome :=
  if env.runtimeThrow then ⟨false, false, "error"⟩
  else if !env.accessorAvailable then ⟨false, false, "error"⟩
  else
    match env.firstEditor with
    | none => ⟨false, false, "error"⟩
    | some t =>
      if t.hasModelSetValue || t.hasInstanceSetValue then
        ⟨true, true, "synced_and_save_requested"⟩
      else ⟨false, false, "error"⟩

/-- The debounced change handler installed by Step 7 of `handleInjectRequest`
in `part_002`: the sync attempt only records success or failure (its own
try/catch swallows runtime errors), and the save event is dispatched
afterwards in a separate block regardless of the sync outcome. -/
def p2DebouncedHandler (env : SyncEnv) : SyncOutcome :=
  let ok :=
    if env.runtimeThrow then false
    else if !env.accessorAvailable then false
    else
      match env.firstEditor with
      | none => false
      | some t => t.hasModelSetValue || t.hasInstanceSetValue
  ⟨true, ok, if ok then "synced_and_save_requested" else "save_requested_sync_failed"⟩

/-- C2 counterexample: when `lcMonaco.editor.getEditors` is unavailable, the
`background.js` debounced handler hits a sync-failure branch and does not
dispatch the save event, refuting the claim that the save notification is
raised for every sync outcome. -/
theorem bgHandler_skips_save_on_sync_failure :
    (bgDebouncedHandler ⟨false, false, none⟩).syncSuccessful = false
      ∧ (bgDebouncedHandler ⟨false, false, none⟩).saveDispatched = false := by
  constructor <;> rfl

/-- C2 amended: the `part_002` handler dispatches the save event for every
sync outcome, including all sync-failure branches, while the `background.js`
handler dispatches it exactly when the best-effort sync succeeded. -/
theorem saveDispatch_by_variant (env : SyncEnv) :
    (p2DebouncedHandler env).saveDispatched = true
      ∧ (bgDebouncedHandler env).saveDispatched = (bgDebouncedHandler env).syncSuccessful := by
  rcases env with ⟨rt, acc, fe⟩
  constructor
  · rfl
  · cases rt <;> cases acc <;> rcases fe with _ | ⟨m, i⟩ <;>
      first
      | rfl
      | (cases m <;> cases i <;> rfl)

/- ### Problem slug extraction and initialization (content script) -/

/-- The literal scanned for by the slug pattern. -/
def problemsLit : List Char := "problems/".toList

/-- Leftmost match of the pattern `problems\/([^/]+)` over a character list:
at each position, if the literal `problems/` starts here and at least one
non-slash character follows it, capture the maximal run of non-slash
characters; otherwise resume scanning at the next position. -/
def slugScan : List Char → Option String
  | [] => none
  | c :: rest =>
    if problemsLit.isPrefixOf (c :: rest) then
      let slug := ((c :: rest).drop problemsLit.length).takeWhile (fun ch => ch ≠ '/')
      if slug.isEmpty then slugScan rest else some (String.mk slug)
    else slugScan rest

/-- `getProblemSlug` from the content scripts:
`window.location.pathname.match(/problems\/([^/]+)/)`, returning the first
capture group or null. -/
def getProblemSlug (pathname : String) : Option String :=
  slugScan pathname.toList

/-- The page state the initialization routine observes. -/
structure PageEnv where
  pathname : String
  hasOriginalEditor : Bool
  originalHasParent : Bool
  containerAlreadyExists : Bool
deriving DecidableEq, Repr

/-- The page mutations and messages the initialization routine can perform. -/
structure InitEffects where
  originalHidden : Bool
  containerCreated : Bool
  injectRequestSent : Bool
deriving DecidableEq, Repr

/-- No page mutation and no message. -/
def noEffects : InitEffects := ⟨false, false, false⟩

/-- `findEditorContainerAndPrepare` from the content scripts: fail before any
mutation when the original editor (or its parent) is missing; otherwise hide
the original editor and create the host container unless it already exists.
Returns the container id on success together with the effects performed. -/
def findEditorContainerAndPrepare (env : PageEnv) : Option String × InitEffects :=
  if !env.hasOriginalEditor then (none, noEffects)
  else if !env.originalHasParent then (none, noEffects)
  else (some "monaco-editor-container",
        { originalHidden := true
          containerCreated := !env.containerAlreadyExists
          injectRequestSent := false })

/-- `initializeEditor` from the content scripts, tracked at the level of page
effects: abort before any mutation when no problem slug can be extracted from
the location; otherwise prepare the container (hiding the original editor)
and, when preparation succeeds, send the `injectAndCreateMonaco` request. -/
def initializeEditor (env : PageEnv) : InitEffects :=
  match getProblemSlug env.pathname with
  | none => noEffects
  | some _ =>
    match findEditorContainerAndPrepare env with
    | (none, eff) => eff
    | (some _, eff) => { eff with injectRequestSent := true }

/-- C7: when no problem slug can be extracted from the page location, the
initialization routine performs no page mutation at all: the original editor
is not hidden, no container is created, and no injection request is sent. -/
theorem initializeEditor_no_slug_no_mutation (env : PageEnv)
    (h : getProblemSlug env.pathname = none) :
    initializeEditor env = noEffects := by
  simp [initializeEditor, h]

/-- Witness for C7: on a pathname without the problems pattern, even with the
original editor present, nothing is mutated. -/
theorem initializeEditor_no_slug_no_mutation_witness :
    initializeEditor ⟨"/explore/learn/", true, true, false⟩ = noEffects :=
  initializeEditor_no_slug_no_mutation ⟨"/explore/learn/", true, true, false⟩ (by decide)

/- ### Language detection (getLeetCodeLanguage) -/

/-- The fixed display-name to Monaco-identifier table of the content script
(`langMap` in leetcode_injector.js, lines 143 to 167). -/
def langMap : String → Option String
  | "python" => some "python"
  | "python3" => some "python"
  | "java" => some "java"
  | "c++" => some "cpp"
  | "cpp" => some "cpp"
  | "c" => some "c"
  | "c#" => some "csharp"
  | "csharp" => some "csharp"
  | "javascript" => some "javascript"
  | "typescript" => some "typescript"
  | "php" => some "php"
  | "swift" => some "swift"
  | "kotlin" => some "kotlin"
  | "dart" => some "dart"
  | "golang" => some "go"
  | "go" => some "go"
  | "ruby" => some "ruby"
  | "scala" => some "scala"
  | "rust" => some "rust"
  | "racket" => some "racket"
  | "erlang" => some "erlang"
  | "elixir" => some "elixir"
  | _ => none

/-- ASCII lower-casing of one character, as `toLowerCase` acts on the
language names involved. -/
def lowerChar (c : Char) : Char :=
  if 'A' ≤ c ∧ c ≤ 'Z' then Char.ofNat (c.toNat + 32) else c

/-- Whitespace for `trim`, restricted to the ASCII range relevant here. -/
def isWsChar (c : Char) : Bool :=
  c == ' ' || c == '\t' || c == '\n' || c == '\r'

/-- `textContent.toLowerCase().trim()` over the character list. -/
def toLowerTrim (s : String) : String :=
  String.mk ((((s.toList.map lowerChar).dropWhile isWsChar).reverse.dropWhile
    isWsChar).reverse)

/-- `getLeetCodeLanguage` from the content script: the input is the text
content of the language UI element (`none` when the element is missing or
has no text; the empty string is falsy in the source's guard). The detected
text is lower-cased and trimmed, looked up in the table, and every failure
path returns the fallback identifier `plaintext`. -/
def getLeetCodeLanguage (textContent : Option String) : String :=
  match textContent with
  | none => "plaintext"
  | some t =>
    if t = "" then "plaintext"
    else
      match langMap (toLowerTrim t) with
      | some l => l
      | none => "plaintext"

/-- Every entry of the mapping table is a non-empty identifier. -/
theorem langMap_ne_empty (s l : String) (h : langMap s = some l) : l ≠ "" := by
  unfold langMap at h
  split at h <;> first | (cases h; decide) | exact Option.noConfusion h

/-- C8: language detection always returns a non-empty identifier (it never
fails), and for any detected text whose lower-cased trimmed form is not in
the table, as well as for a missing element or empty text, it returns the
fallback identifier `plaintext`. -/
theorem getLeetCodeLanguage_total_fallback (t : String)
    (h : langMap (toLowerTrim t) = none) :
    getLeetCodeLanguage (some t) = "plaintext"
      ∧ getLeetCodeLanguage none = "plaintext"
      ∧ getLeetCodeLanguage (some "") = "plaintext"
      ∧ ∀ input : Option String, getLeetCodeLanguage input ≠ "" := by
  refine ⟨?_, rfl, rfl, ?_⟩
  · by_cases ht : t = ""
    · simp [getLeetCodeLanguage, ht]
    · simp [getLeetCodeLanguage, ht, h]
  · intro input
    match input with
    | none => simp [getLeetCodeLanguage]
    | some u =>
      by_cases hu : u = ""
      · simp [getLeetCodeLanguage, hu]
      · simp only [getLeetCodeLanguage, hu, if_neg]
        cases hl : langMap (toLowerTrim u) with
        | none => simp [hu]
        | some l => simpa [hu] using langMap_ne_empty _ _ hl

/-- Witness for C8: a display name absent from the table maps to the
fallback identifier. -/
theorem getLeetCodeLanguage_total_fallback_witness :
    getLeetCodeLanguage (some "Brainfudge") = "plaintext" :=
  (getLeetCodeLanguage_total_fallback "Brainfudge" (by decide)).1

/- ### Recursive key search (findNestedKey) -/

/-- JSON-like values as found in the page-embedded data: the object graph the
content script searches. Being an inductive type, every such value is finite
and acyclic, which is exactly the precondition under which the source's
recursion is well defined. -/
inductive JValue where
  | null
  | bool (b : Bool)
  | num (n : Int)
  | str (s : String)
  | arr (items : List JValue)
  | obj (fields : List (String × JValue))

/-- Whether a value is the null value (the not-found sentinel). -/
def isNullJ : JValue → Bool
  | JValue.null => true
  | _ => false

/-- Own-property lookup, modelling `keyToFind in obj` followed by
`obj[keyToFind]` on an object. -/
def lookupOwn (fields : List (String × JValue)) (key : String) : Option JValue :=
  (fields.find? (fun p => p.1 == key)).map Prod.snd

/-- Fold the child results the way the source's `for...in` loop does: return
the first child result different from null, null if every child reports
null, and propagate the out-of-fuel marker. -/
def firstNonNull : List (Option JValue) → Option JValue
  | [] => some JValue.null
  | none :: _ => none
  | some r :: rest => if isNullJ r then firstNonNull rest else some r

/-- `findNestedKey` from the content script, instrumented with a recursion
budget `fuel` modelling the call stack: the source recursion has no cycle
detection and no depth bound, so the budget makes its termination behaviour
explicit. `none` means the budget was exhausted; `some JValue.null` is the
source's null result (not found, or found with value null); non-object
non-array values return null; an object returns its own property when the
key is present and otherwise recurses over its property values in order;
an array recurses over its elements in order. -/
def findNestedKeyF : Nat → JValue → String → Option JValue
  | 0, _, _ => none
  | fuel + 1, v, key =>
    match v with
    | JValue.obj fields =>
      match lookupOwn fields key with
      | some x => some x
      | none => firstNonNull (fields.map (fun p => findNestedKeyF fuel p.2 key))
    | JValue.arr items =>
      firstNonNull (items.map (fun it => findNestedKeyF fuel it key))
    | _ => some JValue.null

/-- Every JSON value has positive size. -/
theorem jvalue_sizeOf_pos (v : JValue) : 0 < sizeOf v := by
  cases v <;> simp_arith

/-- If every element of the list is settled (not out of fuel), so is the
fold over the children. -/
theorem firstNonNull_isSome (l : List (Option JValue))
    (h : ∀ o ∈ l, o.isSome = true) : (firstNonNull l).isSome = true := by
  induction l with
  | nil => rfl
  | cons o rest ih =>
    have hrest : (firstNonNull rest).isSome = true :=
      ih (fun x hx => h x (List.mem_cons_of_mem o hx))
    have ho : o.isSome = true := h o (List.mem_cons_self o rest)
    cases o with
    | none => exact absurd ho (by simp)
    | some r =>
      cases hr : isNullJ r with
      | true => simpa [firstNonNull, hr] using hrest
      | false => simp [firstNonNull, hr]

/-- C9: the recursive key search terminates on every finite acyclic object:
a recursion budget of the size of the searched value is always sufficient,
so the search never runs out of stack on such values (the budget is needed
because the source performs no cycle detection). -/
theorem findNestedKeyF_terminates :
    ∀ (fuel : Nat) (v : JValue) (key : String), sizeOf v ≤ fuel →
      (findNestedKeyF fuel v key).isSome = true := by
  intro fuel
  induction fuel with
  | zero =>
    intro v key h
    have := jvalue_sizeOf_pos v
    omega
  | succ fuel ih =>
    intro v key h
    cases v with
    | null => rfl
    | bool b => rfl
    | num n => rfl
    | str s => rfl
    | arr items =>
      simp only [findNestedKeyF]
      refine firstNonNull_isSome _ ?_
      intro o ho
      rcases List.mem_map.mp ho with ⟨it, hit, rfl⟩
      refine ih it key ?_
      have h1 : sizeOf it < sizeOf items := List.sizeOf_lt_of_mem hit
      have h2 : sizeOf (JValue.arr items) = 1 + sizeOf items := by simp
      omega
    | obj fields =>
      simp only [findNestedKeyF]
      cases hl : lookupOwn fields key with
      | some x => rfl
      | none =>
        refine firstNonNull_isSome _ ?_
        intro o ho
        rcases List.mem_map.mp ho with ⟨p, hp, rfl⟩
        refine ih p.2 key ?_
        have h1 : sizeOf p < sizeOf fields := List.sizeOf_lt_of_mem hp
        have h2 : sizeOf (JValue.obj fields) = 1 + sizeOf fields := by simp
        have h3 : sizeOf p.2 < sizeOf p := by
          rcases p with ⟨a, b⟩
          simp_arith
        omega

/-- A small page-data sample shaped like the embedded question data. -/
def sampleJson : JValue :=
  JValue.obj
    [("data", JValue.obj
      [("question", JValue.obj
        [("codeSnippets", JValue.arr
          [JValue.obj
            [("langSlug", JValue.str "python3"),
             ("code", JValue.str "pass")]])])])]

/-- Witness for C9: the search over the sample settles within a budget of its
size. -/
theorem findNestedKeyF_terminates_witness :
    (findNestedKeyF 100000 sampleJson "codeSnippets").isSome = true :=
  findNestedKeyF_terminates 100000 sampleJson "codeSnippets" (by decide)
